import Mathlib

/-!
Shallow embedding of the watchman Rust client
(`src/rust/watchman_client/src/lib.rs`) and proofs about its claims.

The embedding models the `ClientTask` coordinator event loop, the
`ReaderTask` PDU framing loop, the `ClientInner::generic_request`
response post-processing, the `Subscription` handle, and
`CanonicalPath::with_canonicalized_path`.

Machine integers are modelled as `Nat` (no arithmetic overflow is
relevant to the modelled code paths), byte buffers as `List Nat`,
fallible operations as `Except`/`Option`, and the external BSER codec
as explicit parameters or value-level shapes, since it lives outside
this crate.
-/

namespace Watchman

/-! ### Coordinator (ClientTask) data model -/

/-- A `SendRequest`: the serialized request bytes plus the oneshot
completion slot. `id` identifies the slot; `rxAlive` records whether
the requesting caller still holds the receiving end of the oneshot
channel (`tx.send` fails when it was dropped). -/
structure SendRequest where
  buf : List Nat
  id : Nat
  rxAlive : Bool
deriving DecidableEq

/-- The shallow `Unilateral` envelope that `process_pdu` tries to
decode each PDU into: `{ unilateral: bool, subscription: String }`. -/
structure Unilateral where
  unilateral : Bool
  subscription : String
deriving DecidableEq

/-- A received PDU as the coordinator can observe it: `uni` is the
result of `bunser::<Unilateral>` on the raw bytes (`none` when that
shallow decode fails), and `raw` identifies the raw byte buffer that
is forwarded untouched. -/
structure Pdu where
  uni : Option Unilateral
  raw : Nat
deriving DecidableEq

/-- The outcome written into a completion slot: either the raw
response PDU (`respond(Ok(pdu))`) or an error string
(`respond(Err(err.to_string()))`). -/
inductive Outcome where
  | ok (pdu : Pdu)
  | err (msg : String)
deriving DecidableEq

/-- How a single event-loop step can abort: `fail` models returning
`Err(..)` from the handler (so `ClientTask::run` calls `fail_all`
before `Drop` runs), `panicked` models a Rust panic (`expect`), where
only the `Drop` impl's `fail_all` runs during unwinding. -/
inductive Abort where
  | fail (msg : String)
  | panicked (msg : String)
deriving DecidableEq

/-- State of the `ClientTask` coordinator.  `front_written` is ghost
state recording whether the bytes of the *current* front of
`request_queue` have been written to the transport; `written` is the
transport write log, `completed` the log of fulfilled completion
slots, and `delivered` the log of PDUs forwarded to subscription
channels (channel id, pdu). -/
structure ClientState where
  request_queue : List SendRequest
  waiting_response : Bool
  subscriptions : List (String × Nat)
  front_written : Bool
  written : List (List Nat)
  completed : List (Nat × Outcome)
  delivered : List (Nat × Pdu)
deriving DecidableEq

/-- The initial coordinator state built in `Connector::connect`. -/
def ClientState.init : ClientState :=
  ⟨[], false, [], false, [], [], []⟩

/-- Per-step environment: whether the transport `write_all` succeeds,
and which subscription channel receivers are still alive (an
`UnboundedSender::send` fails when the receiver was dropped). -/
structure Env where
  writeOk : Bool
  alive : List Nat
deriving DecidableEq

/-- `HashMap::get`: first entry with the given name. -/
def subsGet (name : String) (subs : List (String × Nat)) : Option Nat :=
  (subs.find? (fun e => e.1 = name)).map (·.2)

/-- `HashMap::insert`: replaces any existing entry for the name. -/
def subsInsert (name : String) (ch : Nat) (subs : List (String × Nat)) :
    List (String × Nat) :=
  (name, ch) :: subs.filter (fun e => ¬ (e.1 = name))

/-- `HashMap::remove`. -/
def subsRemove (name : String) (subs : List (String × Nat)) :
    List (String × Nat) :=
  subs.filter (fun e => ¬ (e.1 = name))

/-! ### Coordinator event handlers -/

/-- `ClientTask::send_next_request`: if not waiting for a response and
the queue is non-empty, write the front request's bytes to the
transport; a write failure is connection-fatal, a successful write
sets `waiting_response`.  (The source guards with
`!waiting_response && !request_queue.is_empty()` and then uses
`front().expect("not empty")`; the guard makes that `expect`
infallible, so it is expressed here as a match on the queue.) -/
def send_next_request (env : Env) (s : ClientState) :
    ClientState × Option Abort :=
  if s.waiting_response then (s, none)
  else
    match s.request_queue with
    | [] => (s, none)
    | front :: _ =>
      if env.writeOk then
        ({ s with written := s.written ++ [front.buf],
                  waiting_response := true,
                  front_written := true }, none)
      else (s, some (Abort.fail "write failed"))

/-- `ClientTask::queue_request`: push to the back of the queue, then
try to send.  (Ghost update: a request pushed onto an empty queue
becomes the front and has not been written yet.) -/
def queue_request (env : Env) (r : SendRequest) (s : ClientState) :
    ClientState × Option Abort :=
  send_next_request env
    { s with request_queue := s.request_queue ++ [r],
             front_written :=
               if s.request_queue.isEmpty then false else s.front_written }

/-- `ClientTask::process_pdu`: if the PDU shallow-decodes as a
`Unilateral` envelope, route it to the registered subscription channel
(deregistering on a dead receiver) — an unregistered name is silently
dropped; otherwise, if a request is waiting, complete the front of the
queue with the PDU; otherwise fail the connection.  Afterwards try to
send the next queued request. -/
def process_pdu (env : Env) (p : Pdu) (s : ClientState) :
    ClientState × Option Abort :=
  match p.uni with
  | some u =>
    match subsGet u.subscription s.subscriptions with
    | some ch =>
      if ch ∈ env.alive then
        send_next_request env { s with delivered := s.delivered ++ [(ch, p)] }
      else
        send_next_request env
          { s with subscriptions := subsRemove u.subscription s.subscriptions }
    | none => send_next_request env s
  | none =>
    if s.waiting_response then
      match s.request_queue with
      | [] =>
        (s, some (Abort.panicked
          "waiting_response is only true when request_queue is not empty"))
      | front :: rest =>
        let s1 : ClientState :=
          { s with request_queue := rest,
                   waiting_response := false,
                   front_written := false,
                   completed := s.completed ++ [(front.id, Outcome.ok p)] }
        if front.rxAlive then send_next_request env s1
        else (s1, some (Abort.fail "requestor has dropped its receiver"))
    else (s, some (Abort.fail "received a unilateral PDU from the server"))

/-- `ClientTask::register_subscription`: unconditional insert. -/
def register_subscription (name : String) (ch : Nat) (s : ClientState) :
    ClientState × Option Abort :=
  ({ s with subscriptions := subsInsert name ch s.subscriptions }, none)

/-- The three `TaskItem` event kinds consumed by the coordinator. -/
inductive TaskItem where
  | queueRequest (r : SendRequest)
  | processReceivedPdu (p : Pdu)
  | registerSubscription (name : String) (ch : Nat)
deriving DecidableEq

/-- One iteration of `ClientTask::run_loop`: dispatch on the event. -/
def handle (env : Env) (it : TaskItem) (s : ClientState) :
    ClientState × Option Abort :=
  match it with
  | TaskItem.queueRequest r => queue_request env r s
  | TaskItem.processReceivedPdu p => process_pdu env p s
  | TaskItem.registerSubscription name ch => register_subscription name ch s

/-- `ClientTask::fail_all`: pop every queued request and fulfil its
completion slot with the error string (`respond(..).ok()` ignores
failures of the send itself). -/
def fail_all (msg : String) (s : ClientState) : ClientState :=
  { s with request_queue := [],
           completed :=
             s.completed ++ s.request_queue.map (fun r => (r.id, Outcome.err msg)) }

/-- `ClientTask::run_loop`: consume the merged inbound event stream
(each event paired with the environment for that step) until the
channel closes or a handler aborts. -/
def run_loop : List (Env × TaskItem) → ClientState → ClientState × Option Abort
  | [], s => (s, none)
  | (env, it) :: rest, s =>
    match handle env it s with
    | (s', none) => run_loop rest s'
    | (s', some a) => (s', some a)

/-- The error message used by run-time `fail_all`: `ClientTask::run`
drains with the propagated error's string; on clean exit or a panic
only the `Drop` impl runs, draining with "the client task
terminated". -/
def drainMsg : Option Abort → String
  | some (Abort.fail m) => m
  | some (Abort.panicked _) => "the client task terminated"
  | none => "the client task terminated"

/-- Full lifetime of the task: `run` (which drains on error) followed
by the `Drop` impl, which always drains whatever is left. -/
def run_and_drop (evs : List (Env × TaskItem)) : ClientState :=
  match run_loop evs ClientState.init with
  | (s, none) => fail_all "the client task terminated" s
  | (s, some (Abort.fail m)) =>
    fail_all "the client task terminated" (fail_all m s)
  | (s, some (Abort.panicked _)) => fail_all "the client task terminated" s

/-- The ids of the requests submitted (queued) by an event stream, in
submission order. -/
def submittedIds (evs : List (Env × TaskItem)) : List Nat :=
  evs.filterMap (fun e =>
    match e.2 with
    | TaskItem.queueRequest r => some r.id
    | _ => none)

/-- The ids whose completion slots were fulfilled with a successful
raw response, in fulfilment order. -/
def okIds (s : ClientState) : List Nat :=
  s.completed.filterMap (fun c =>
    match c.2 with
    | Outcome.ok _ => some c.1
    | Outcome.err _ => none)

/-- The coordinator's inductive invariant: the waiting flag mirrors
queue non-emptiness, the ghost front-written marker mirrors the
waiting flag, and the number of transport writes equals the number of
successful completions plus one for the request currently in flight. -/
def FullInv (s : ClientState) : Prop :=
  s.waiting_response = !s.request_queue.isEmpty ∧
  s.front_written = s.waiting_response ∧
  s.written.length = (okIds s).length + (if s.waiting_response then 1 else 0)

instance (s : ClientState) : Decidable (FullInv s) := by
  unfold FullInv; infer_instance

/-- The ids of the queued requests, front first. -/
def queueIds (s : ClientState) : List Nat :=
  s.request_queue.map SendRequest.id

/-- The ids of all fulfilled completion slots, in fulfilment order. -/
def doneIds (s : ClientState) : List Nat :=
  s.completed.map Prod.fst

/-- All fulfilled completion slots carry a successful response. -/
def allOk (s : ClientState) : Prop :=
  ∀ c ∈ s.completed, ∃ p, c.2 = Outcome.ok p

/-! ### Helper lemmas about the coordinator -/

theorem snr_frame (env : Env) (s : ClientState) :
    (send_next_request env s).1.request_queue = s.request_queue ∧
    (send_next_request env s).1.completed = s.completed ∧
    (send_next_request env s).1.delivered = s.delivered ∧
    (send_next_request env s).1.subscriptions = s.subscriptions := by
  unfold send_next_request
  split
  · exact ⟨rfl, rfl, rfl, rfl⟩
  · split
    · exact ⟨rfl, rfl, rfl, rfl⟩
    · split <;> exact ⟨rfl, rfl, rfl, rfl⟩

theorem FullInv_snr (env : Env) (s s' : ClientState)
    (hfw : s.front_written = s.waiting_response)
    (hlen : s.written.length =
      (okIds s).length + (if s.waiting_response then 1 else 0))
    (hw : s.waiting_response = true → s.request_queue ≠ [])
    (h : send_next_request env s = (s', none)) : FullInv s' := by
  unfold send_next_request at h
  split at h
  · rename_i hwt
    obtain ⟨rfl, -⟩ := Prod.mk.injEq .. ▸ h
    refine ⟨?_, hfw.trans rfl, hlen⟩
    have := hw hwt
    simp [List.isEmpty_iff, this, hwt]
  · rename_i hwf
    rw [Bool.not_eq_true] at hwf
    split at h
    · rename_i hqe
      obtain ⟨rfl, -⟩ := Prod.mk.injEq .. ▸ h
      refine ⟨?_, ?_, hlen⟩
      · simp [hqe, hwf]
      · rw [hfw, hwf]
    · rename_i front rest hq
      split at h
      · obtain ⟨rfl, -⟩ := Prod.mk.injEq .. ▸ h
        refine ⟨?_, rfl, ?_⟩
        · simp [hq]
        · simp only [okIds] at hlen ⊢
          simp [hwf] at hlen
          simp [hlen]
      · exact absurd h (by simp)

theorem FullInv_handle (env : Env) (it : TaskItem) (s s' : ClientState)
    (hs : FullInv s) (h : handle env it s = (s', none)) : FullInv s' := by
  obtain ⟨h1, h2, h3⟩ := hs
  cases it with
  | queueRequest r =>
    simp only [handle, queue_request] at h
    refine FullInv_snr env _ _ ?_ ?_ ?_ h
    · by_cases hq : s.request_queue.isEmpty = true
      · simp [hq, h1]
      · simp only [Bool.not_eq_true] at hq
        simp [hq, h2]
    · simpa [okIds] using h3
    · intro _; simp
  | processReceivedPdu p =>
    simp only [handle, process_pdu] at h
    have hne : s.waiting_response = true → s.request_queue ≠ [] := by
      intro hwt he
      rw [he] at h1; rw [h1] at hwt; simp at hwt
    cases hu : p.uni with
    | some u =>
      simp only [hu] at h
      cases hg : subsGet u.subscription s.subscriptions with
      | some ch =>
        simp only [hg] at h
        by_cases ha : ch ∈ env.alive
        · rw [if_pos ha] at h
          refine FullInv_snr env _ _ ?_ ?_ ?_ h
          · exact h2
          · simpa [okIds] using h3
          · exact hne
        · rw [if_neg ha] at h
          refine FullInv_snr env _ _ ?_ ?_ ?_ h
          · exact h2
          · simpa [okIds] using h3
          · exact hne
      | none =>
        simp only [hg] at h
        exact FullInv_snr env _ _ h2 (by simpa [okIds] using h3) hne h
    | none =>
      simp only [hu] at h
      by_cases hw : s.waiting_response = true
      · simp only [hw, if_true] at h
        cases hq : s.request_queue with
        | nil => simp only [hq] at h; exact absurd h (by simp)
        | cons front rest =>
          simp only [hq] at h
          by_cases hrx : front.rxAlive = true
          · simp only [hrx, if_true] at h
            refine FullInv_snr env _ _ rfl ?_ ?_ h
            · simp only [okIds, List.filterMap_append, List.length_append]
              simp only [okIds] at h3
              simp [hw] at h3
              simp [h3]
            · simp
          · simp only [Bool.not_eq_true] at hrx
            simp [hrx] at h
      · simp only [Bool.not_eq_true] at hw
        simp [hw] at h
  | registerSubscription name ch =>
    simp only [handle, register_subscription, Prod.mk.injEq] at h
    obtain ⟨rfl, -⟩ := h
    exact ⟨h1, h2, by simpa [okIds] using h3⟩

/-- The request ids a single event submits to the queue. -/
def submittedOf : TaskItem → List Nat
  | TaskItem.queueRequest r => [r.id]
  | TaskItem.processReceivedPdu _ => []
  | TaskItem.registerSubscription _ _ => []

theorem submittedIds_cons (env : Env) (it : TaskItem)
    (rest : List (Env × TaskItem)) :
    submittedIds ((env, it) :: rest) = submittedOf it ++ submittedIds rest := by
  cases it <;> simp [submittedIds, submittedOf]

theorem handle_ids (env : Env) (it : TaskItem) (s : ClientState) :
    doneIds (handle env it s).1 ++ queueIds (handle env it s).1
      = (doneIds s ++ queueIds s) ++ submittedOf it := by
  cases it with
  | queueRequest r =>
    have hf := snr_frame env
      { s with request_queue := s.request_queue ++ [r],
               front_written :=
                 if s.request_queue.isEmpty then false else s.front_written }
    simp only [handle, queue_request]
    simp only [doneIds, queueIds, hf.1, hf.2.1]
    simp [submittedOf]
  | processReceivedPdu p =>
    cases hu : p.uni with
    | some u =>
      cases hg : subsGet u.subscription s.subscriptions with
      | some ch =>
        by_cases ha : ch ∈ env.alive
        · simp only [handle, process_pdu, hu, hg, if_pos ha, submittedOf,
            List.append_nil]
          have hf := snr_frame env { s with delivered := s.delivered ++ [(ch, p)] }
          simp only [doneIds, queueIds, hf.1, hf.2.1]
        · simp only [handle, process_pdu, hu, hg, if_neg ha, submittedOf,
            List.append_nil]
          have hf := snr_frame env
            { s with subscriptions := subsRemove u.subscription s.subscriptions }
          simp only [doneIds, queueIds, hf.1, hf.2.1]
      | none =>
        simp only [handle, process_pdu, hu, hg, submittedOf, List.append_nil]
        have hf := snr_frame env s
        simp only [doneIds, queueIds, hf.1, hf.2.1]
    | none =>
      by_cases hw : s.waiting_response = true
      · cases hq : s.request_queue with
        | nil =>
          simp only [handle, process_pdu, hu, hw, if_true, hq, submittedOf]
          simp [doneIds, queueIds, hq]
        | cons front rest =>
          by_cases hrx : front.rxAlive = true
          · simp only [handle, process_pdu, hu, hw, if_true, hq, hrx,
              submittedOf, List.append_nil]
            have hf := snr_frame env
              { s with request_queue := rest, waiting_response := false,
                       front_written := false,
                       completed := s.completed ++ [(front.id, Outcome.ok p)] }
            simp only [doneIds, queueIds, hf.1, hf.2.1]
            simp [hq]
          · simp only [Bool.not_eq_true] at hrx
            simp only [handle, process_pdu, hu, hw, if_true, hq, hrx,
              submittedOf, List.append_nil]
            simp [doneIds, queueIds, hq]
      · simp only [Bool.not_eq_true] at hw
        simp only [handle, process_pdu, hu, hw, submittedOf, List.append_nil]
        simp [doneIds, queueIds]
  | registerSubscription name ch =>
    simp [handle, register_subscription, doneIds, queueIds, submittedOf]

theorem handle_allOk (env : Env) (it : TaskItem) (s : ClientState)
    (hs : allOk s) : allOk (handle env it s).1 := by
  cases it with
  | queueRequest r =>
    have hf := snr_frame env
      { s with request_queue := s.request_queue ++ [r],
               front_written :=
                 if s.request_queue.isEmpty then false else s.front_written }
    simp only [allOk, handle, queue_request, hf.2.1]
    exact hs
  | processReceivedPdu p =>
    cases hu : p.uni with
    | some u =>
      cases hg : subsGet u.subscription s.subscriptions with
      | some ch =>
        by_cases ha : ch ∈ env.alive
        · simp only [handle, process_pdu, hu, hg, if_pos ha]
          have hf := snr_frame env { s with delivered := s.delivered ++ [(ch, p)] }
          simp only [allOk, hf.2.1]
          exact hs
        · simp only [handle, process_pdu, hu, hg, if_neg ha]
          have hf := snr_frame env
            { s with subscriptions := subsRemove u.subscription s.subscriptions }
          simp only [allOk, hf.2.1]
          exact hs
      | none =>
        simp only [handle, process_pdu, hu, hg]
        have hf := snr_frame env s
        simp only [allOk, hf.2.1]
        exact hs
    | none =>
      by_cases hw : s.waiting_response = true
      · cases hq : s.request_queue with
        | nil =>
          simp only [handle, process_pdu, hu, hw, if_true, hq]
          exact hs
        | cons front rest =>
          have key : allOk
              { s with request_queue := rest, waiting_response := false,
                       front_written := false,
                       completed := s.completed ++ [(front.id, Outcome.ok p)] } := by
            intro c hc
            rcases List.mem_append.mp hc with hc | hc
            · exact hs c hc
            · rcases List.mem_singleton.mp hc with rfl
              exact ⟨p, rfl⟩
          by_cases hrx : front.rxAlive = true
          · simp only [handle, process_pdu, hu, hw, if_true, hq, hrx]
            have hf := snr_frame env
              { s with request_queue := rest, waiting_response := false,
                       front_written := false,
                       completed := s.completed ++ [(front.id, Outcome.ok p)] }
            simp only [allOk, hf.2.1]
            exact key
          · simp only [Bool.not_eq_true] at hrx
            simp only [handle, process_pdu, hu, hw, if_true, hq, hrx]
            exact key
      · simp only [Bool.not_eq_true] at hw
        simp only [handle, process_pdu, hu, hw]
        exact hs
  | registerSubscription name ch =>
    exact hs

theorem prefix_append_left {l l₂ x : List Nat} (h : l <+: l₂) :
    x ++ l <+: x ++ l₂ := by
  obtain ⟨t, rfl⟩ := h
  exact ⟨t, by simp⟩

theorem run_loop_ids (evs : List (Env × TaskItem)) :
    ∀ s : ClientState, ∃ l, l <+: submittedIds evs ∧
      doneIds (run_loop evs s).1 ++ queueIds (run_loop evs s).1
        = (doneIds s ++ queueIds s) ++ l := by
  induction evs with
  | nil =>
    intro s
    exact ⟨[], List.nil_prefix, by simp [run_loop]⟩
  | cons e rest ih =>
    intro s
    obtain ⟨env, it⟩ := e
    have hhi := handle_ids env it s
    rw [submittedIds_cons]
    cases hh : handle env it s with
    | mk s1 ab =>
      rw [hh] at hhi
      cases ab with
      | none =>
        obtain ⟨l, hl, hids⟩ := ih s1
        refine ⟨submittedOf it ++ l, prefix_append_left hl, ?_⟩
        simp only [run_loop, hh]
        rw [hids, hhi]
        simp
      | some a =>
        refine ⟨submittedOf it, ⟨submittedIds rest, rfl⟩, ?_⟩
        simp only [run_loop, hh]
        exact hhi

theorem run_loop_allOk (evs : List (Env × TaskItem)) :
    ∀ s : ClientState, allOk s → allOk (run_loop evs s).1 := by
  induction evs with
  | nil => intro s hs; simpa [run_loop] using hs
  | cons e rest ih =>
    intro s hs
    obtain ⟨env, it⟩ := e
    have h1 := handle_allOk env it s hs
    cases hh : handle env it s with
    | mk s1 ab =>
      rw [hh] at h1
      cases ab with
      | none => simp only [run_loop, hh]; exact ih s1 h1
      | some a => simp only [run_loop, hh]; exact h1

theorem filterMap_ok_eq_map (l : List (Nat × Outcome))
    (h : ∀ c ∈ l, ∃ p, c.2 = Outcome.ok p) :
    l.filterMap (fun c =>
      match c.2 with
      | Outcome.ok _ => some c.1
      | Outcome.err _ => none) = l.map Prod.fst := by
  induction l with
  | nil => rfl
  | cons c cs ih =>
    obtain ⟨p, hp⟩ := h c (List.mem_cons_self ..)
    simp only [List.filterMap_cons, List.map_cons, hp]
    rw [ih (fun d hd => h d (List.mem_cons_of_mem _ hd))]

theorem okIds_eq_doneIds (s : ClientState) (hs : allOk s) :
    okIds s = doneIds s :=
  filterMap_ok_eq_map s.completed hs

theorem okIds_fail_all (msg : String) (s : ClientState) :
    okIds (fail_all msg s) = okIds s := by
  simp [okIds, fail_all, List.filterMap_append, List.filterMap_map,
    Function.comp]

theorem doneIds_fail_all (msg : String) (s : ClientState) :
    doneIds (fail_all msg s) = doneIds s ++ queueIds s := by
  simp [doneIds, fail_all, queueIds, List.map_map, Function.comp]

theorem allOk_init : allOk ClientState.init := by
  intro c hc
  simp [ClientState.init] at hc

theorem snr_noop (env : Env) (s : ClientState)
    (h : s.waiting_response = false → s.request_queue = []) :
    send_next_request env s = (s, none) := by
  unfold send_next_request
  by_cases hw : s.waiting_response = true
  · simp [hw]
  · simp only [Bool.not_eq_true] at hw
    simp [hw, h hw]

/-! ### Claim theorems about the coordinator -/

/-- Claim C1: responses are matched in strict FIFO order.  Over any
event stream consumed by the `ClientTask` loop, the sequence of
request ids whose completion slots are fulfilled with a raw response
PDU (in fulfilment order) is a prefix of the sequence of request ids
in submission order, so callers receive responses in the order their
requests were submitted. -/
theorem c1_fifo_responses (evs : List (Env × TaskItem)) :
    okIds (run_and_drop evs) <+: submittedIds evs := by
  have hAll := run_loop_allOk evs ClientState.init allOk_init
  obtain ⟨l, hl, hids⟩ := run_loop_ids evs ClientState.init
  cases hrl : run_loop evs ClientState.init with
  | mk s1 ab =>
    rw [hrl] at hAll hids
    simp only [doneIds, queueIds, ClientState.init, List.map_nil,
      List.nil_append] at hids
    have hok : okIds (run_and_drop evs) = doneIds s1 := by
      cases ab with
      | none =>
        simp only [run_and_drop, hrl, okIds_fail_all]
        exact okIds_eq_doneIds s1 hAll
      | some a =>
        cases a with
        | fail m =>
          simp only [run_and_drop, hrl, okIds_fail_all]
          exact okIds_eq_doneIds s1 hAll
        | panicked m =>
          simp only [run_and_drop, hrl, okIds_fail_all]
          exact okIds_eq_doneIds s1 hAll
    rw [hok]
    exact List.IsPrefix.trans (⟨queueIds s1, hids⟩ : doneIds s1 <+: l) hl

/-- Claim C2: the coordinator invariant — the waiting flag mirrors
queue non-emptiness and front-written-ness, and at most one request is
in flight (the write log exceeds the successful completions by at most
one).  It holds initially, every event handler preserves it, and it
implies the claimed iff and in-flight bound. -/
theorem c2_single_in_flight :
    FullInv ClientState.init ∧
    (∀ (env : Env) (it : TaskItem) (s s' : ClientState),
      FullInv s → handle env it s = (s', none) → FullInv s') ∧
    (∀ s : ClientState, FullInv s →
      ((s.waiting_response = true ↔
          s.request_queue ≠ [] ∧ s.front_written = true) ∧
        s.written.length ≤ (okIds s).length + 1)) := by
  refine ⟨by decide, FullInv_handle, ?_⟩
  rintro s ⟨h1, h2, h3⟩
  constructor
  · constructor
    · intro hw
      refine ⟨?_, h2.trans hw⟩
      intro he
      rw [he] at h1; rw [h1] at hw; simp at hw
    · rintro ⟨hne, hfw⟩
      rw [← h2, hfw]
  · rw [h3]
    split <;> omega

/-- Witness for C2: the invariant holds on the concrete state reached
by queueing one request from the initial state. -/
theorem c2_single_in_flight_witness :
    FullInv { request_queue := [⟨[1, 2], 0, true⟩], waiting_response := true,
              subscriptions := [], front_written := true, written := [[1, 2]],
              completed := [], delivered := [] } :=
  c2_single_in_flight.2.1 ⟨true, []⟩ (TaskItem.queueRequest ⟨[1, 2], 0, true⟩)
    ClientState.init _ (by decide) (by decide)

/-- Claim C3: whenever the event loop exits — cleanly (inbound channel
closed), by a propagated error, or by a panic — the pending queue is
drained: the final state has an empty queue, each request that was
still queued at loop exit is completed exactly once with the
connection-terminated error string, and (submission ids being
distinct) no slot is ever fulfilled twice. -/
theorem c3_drain_on_exit (evs : List (Env × TaskItem)) :
    (run_and_drop evs).request_queue = [] ∧
    (run_and_drop evs).completed
      = (run_loop evs ClientState.init).1.completed
        ++ (run_loop evs ClientState.init).1.request_queue.map
            (fun r => (r.id, Outcome.err (drainMsg (run_loop evs ClientState.init).2))) ∧
    ((submittedIds evs).Nodup →
      ((run_and_drop evs).completed.map Prod.fst).Nodup) := by
  obtain ⟨l, hl, hids⟩ := run_loop_ids evs ClientState.init
  cases hrl : run_loop evs ClientState.init with
  | mk s1 ab =>
    rw [hrl] at hids
    simp only [doneIds, queueIds, ClientState.init, List.map_nil,
      List.nil_append] at hids
    have hfinal : ∃ msg, run_and_drop evs = fail_all msg s1 ∧ msg = drainMsg ab := by
      cases ab with
      | none =>
        exact ⟨"the client task terminated",
          by simp only [run_and_drop, hrl], rfl⟩
      | some a =>
        cases a with
        | fail m =>
          refine ⟨m, ?_, rfl⟩
          simp only [run_and_drop, hrl]
          simp [fail_all]
        | panicked m =>
          exact ⟨"the client task terminated",
            by simp only [run_and_drop, hrl], rfl⟩
    obtain ⟨msg, hfa, hmsg⟩ := hfinal
    refine ⟨by rw [hfa]; rfl, ?_, ?_⟩
    · rw [hfa, hmsg]
      rfl
    · intro hnd
      rw [hfa]
      have hdone : (fail_all msg s1).completed.map Prod.fst
          = doneIds s1 ++ queueIds s1 := doneIds_fail_all msg s1
      rw [hdone]
      simp only [doneIds, queueIds]
      rw [hids]
      exact (hl.sublist).nodup hnd

/-- Witness for C3: two requests queued and never answered are both
drained with the connection-terminated error, each exactly once. -/
theorem c3_drain_on_exit_witness :
    (submittedIds [((⟨true, []⟩ : Env), TaskItem.queueRequest ⟨[7], 1, true⟩),
        ((⟨true, []⟩ : Env), TaskItem.queueRequest ⟨[8], 2, true⟩)]).Nodup ∧
    ((run_and_drop [((⟨true, []⟩ : Env), TaskItem.queueRequest ⟨[7], 1, true⟩),
        ((⟨true, []⟩ : Env), TaskItem.queueRequest ⟨[8], 2, true⟩)]).completed.map
        Prod.fst).Nodup :=
  ⟨by decide,
    (c3_drain_on_exit
      [((⟨true, []⟩ : Env), TaskItem.queueRequest ⟨[7], 1, true⟩),
        ((⟨true, []⟩ : Env), TaskItem.queueRequest ⟨[8], 2, true⟩)]).2.2 (by decide)⟩

/-- Claim C4 is refuted: a PDU that decodes as a unilateral push
envelope with an unregistered subscription name while no request is in
flight does NOT fail the connection — starting from the initial state
(no subscriptions registered, nothing in flight) the handler returns
with no error and the state unchanged. -/
theorem c4_counterexample :
    process_pdu ⟨true, []⟩ ⟨some ⟨true, "missing"⟩, 3⟩ ClientState.init
      = (ClientState.init, none) := by decide

/-- Claim C4 (amended): a PDU that decodes as a unilateral push
envelope whose subscription name is not registered is silently dropped
(no error, no state change); the event loop terminates with the
protocol-violation error only when the PDU does NOT decode as a
unilateral push envelope and no request is in flight. -/
theorem c4_unregistered_push (env : Env) (p : Pdu) (s : ClientState)
    (hInv : FullInv s) :
    (∀ u, p.uni = some u →
      subsGet u.subscription s.subscriptions = none →
      process_pdu env p s = (s, none)) ∧
    (p.uni = none → s.waiting_response = false →
      process_pdu env p s
        = (s, some (Abort.fail "received a unilateral PDU from the server"))) := by
  obtain ⟨h1, -, -⟩ := hInv
  constructor
  · intro u hu hg
    simp only [process_pdu, hu, hg]
    refine snr_noop env s ?_
    intro hw
    rw [hw] at h1
    simpa [List.isEmpty_iff] using h1.symm
  · intro hu hw
    simp [process_pdu, hu, hw]

/-- Witness for the amended C4: both branches evaluated at concrete
states. -/
theorem c4_unregistered_push_witness :
    process_pdu ⟨true, [4]⟩ ⟨some ⟨true, "nobody"⟩, 5⟩ ClientState.init
      = (ClientState.init, none) ∧
    process_pdu ⟨true, [4]⟩ ⟨none, 5⟩ ClientState.init
      = (ClientState.init,
          some (Abort.fail "received a unilateral PDU from the server")) :=
  ⟨(c4_unregistered_push ⟨true, [4]⟩ ⟨some ⟨true, "nobody"⟩, 5⟩ ClientState.init
      (by decide)).1 ⟨true, "nobody"⟩ rfl (by decide),
   (c4_unregistered_push ⟨true, [4]⟩ ⟨none, 5⟩ ClientState.init
      (by decide)).2 rfl (by decide)⟩

/-- Claim C5: any PDU that shallow-decodes as a unilateral push
envelope takes the push path before the response-match path: in every
invariant-satisfying coordinator state it never aborts, leaves the
pending-request queue, the waiting flag and the completion log
unchanged (even when a request is in flight), and when the
subscription name is registered with a live receiver the raw PDU is
forwarded exactly to that subscription's channel. -/
theorem c5_push_precedence (env : Env) (p : Pdu) (u : Unilateral)
    (s : ClientState) (hInv : FullInv s) (hu : p.uni = some u) :
    (process_pdu env p s).2 = none ∧
    (process_pdu env p s).1.request_queue = s.request_queue ∧
    (process_pdu env p s).1.waiting_response = s.waiting_response ∧
    (process_pdu env p s).1.written = s.written ∧
    (process_pdu env p s).1.completed = s.completed ∧
    (∀ ch, subsGet u.subscription s.subscriptions = some ch →
      ch ∈ env.alive →
      (process_pdu env p s).1.delivered = s.delivered ++ [(ch, p)]) := by
  obtain ⟨h1, -, -⟩ := hInv
  have hempty : s.waiting_response = false → s.request_queue = [] := by
    intro hw
    rw [hw] at h1
    simpa [List.isEmpty_iff] using h1.symm
  cases hg : subsGet u.subscription s.subscriptions with
  | some ch =>
    by_cases ha : ch ∈ env.alive
    · have hsnr := snr_noop env { s with delivered := s.delivered ++ [(ch, p)] }
        hempty
      have hp : process_pdu env p s
          = ({ s with delivered := s.delivered ++ [(ch, p)] }, none) := by
        simp only [process_pdu, hu, hg, if_pos ha, hsnr]
      rw [hp]
      refine ⟨rfl, rfl, rfl, rfl, rfl, ?_⟩
      intro ch' hch' _
      injection hch' with hcc
      subst hcc
      rfl
    · have hsnr := snr_noop env
        { s with subscriptions := subsRemove u.subscription s.subscriptions }
        hempty
      have hp : process_pdu env p s
          = ({ s with subscriptions := subsRemove u.subscription s.subscriptions },
              none) := by
        simp only [process_pdu, hu, hg, if_neg ha, hsnr]
      rw [hp]
      refine ⟨rfl, rfl, rfl, rfl, rfl, ?_⟩
      intro ch' hch' ha'
      injection hch' with hcc
      subst hcc
      exact absurd ha' ha
  | none =>
    have hsnr := snr_noop env s hempty
    have hp : process_pdu env p s = (s, none) := by
      simp only [process_pdu, hu, hg, hsnr]
    rw [hp]
    refine ⟨rfl, rfl, rfl, rfl, rfl, ?_⟩
    intro ch' hch' _
    exact Option.noConfusion hch'

/-- Witness for C5: a push PDU for a registered live subscription is
forwarded to its channel while a request is in flight, leaving queue
and flag untouched. -/
theorem c5_push_precedence_witness :
    (process_pdu ⟨true, [5]⟩ ⟨some ⟨true, "subA"⟩, 9⟩
        { request_queue := [⟨[1], 0, true⟩], waiting_response := true,
          subscriptions := [("subA", 5)], front_written := true,
          written := [[1]], completed := [], delivered := [] }).2 = none ∧
    (process_pdu ⟨true, [5]⟩ ⟨some ⟨true, "subA"⟩, 9⟩
        { request_queue := [⟨[1], 0, true⟩], waiting_response := true,
          subscriptions := [("subA", 5)], front_written := true,
          written := [[1]], completed := [], delivered := [] }).1.delivered
      = [(5, ⟨some ⟨true, "subA"⟩, 9⟩)] :=
  ⟨(c5_push_precedence ⟨true, [5]⟩ ⟨some ⟨true, "subA"⟩, 9⟩ ⟨true, "subA"⟩
      _ (by decide) rfl).1,
   (c5_push_precedence ⟨true, [5]⟩ ⟨some ⟨true, "subA"⟩, 9⟩ ⟨true, "subA"⟩
      _ (by decide) rfl).2.2.2.2.2 5 (by decide) (by decide)⟩

/-! ### Frame Reader (ReaderTask) embedding -/

/-- The read half of the transport as the reader task can observe it:
`data` is the byte sequence still to be delivered, and `sched` models
the operating system's partial reads — each `read` call consumes one
schedule entry `n` and delivers at most `min cap n` bytes (`cap` being
the caller's buffer capacity).  An empty schedule or an exhausted
`data` yields a zero-byte read. -/
structure RStream where
  data : List Nat
  sched : List Nat
deriving DecidableEq

/-- One `read` call with buffer capacity `cap`: returns the bytes read
and the remaining stream. -/
def readStream (cap : Nat) (st : RStream) : List Nat × RStream :=
  match st.sched with
  | [] => ([], st)
  | n :: ns =>
    let k := min cap n
    (st.data.take k, ⟨st.data.drop k, ns⟩)

/-- The `PduInfo` produced by `Bunser::read_pdu` on the header sniff:
the payload start offset and declared length (the only two fields the
reader task uses). -/
structure PduInfo where
  start : Nat
  len : Nat
deriving DecidableEq

/-- `PduHeader`: the initially read bytes plus the sniffed info. -/
structure PduHeader where
  buf : List Nat
  pdu : PduInfo
deriving DecidableEq

/-- Reader-task errors: `Error::Eof`, `Error::Deserialize { data }`
(the header sniff failed), and the slice-index panic that
`buf.as_mut_slice()[end..total]` would raise if the first read
overshot the declared total. -/
inductive RError where
  | eof
  | deserialize (data : List Nat)
  | panicSlice
deriving DecidableEq

/-- `ReaderTask::read_bser_pdu_length`: read an initial chunk of up to
16 bytes; a zero-byte read is `Eof`; then sniff the header with the
external codec (`sniff`, modelling `Bunser::read_pdu`), failing with a
`Deserialize` error carrying the read bytes. -/
def read_bser_pdu_length (sniff : List Nat → Option PduInfo) (st : RStream) :
    Except RError (PduHeader × RStream) :=
  let r := readStream 16 st
  if r.1.length = 0 then Except.error RError.eof
  else
    match sniff r.1 with
    | none => Except.error (RError.deserialize r.1)
    | some pdu => Except.ok (⟨r.1, pdu⟩, r.2)

/-- Writing `chunk` into `buf[pos..pos+chunk.length]` (the effect of
`read` into the mutable slice `buf[end..total]`). -/
def writeAt (buf : List Nat) (pos : Nat) (chunk : List Nat) : List Nat :=
  buf.take pos ++ chunk ++ buf.drop (pos + chunk.length)

/-- `Vec::resize(n, 0)`: truncate or pad with zeroes to length `n`. -/
def listResize (l : List Nat) (n : Nat) : List Nat :=
  l.take n ++ List.replicate (n - l.length) 0

/-- The `while end != total` read loop of `read_pdu_vec`, with an
explicit gas argument (`total - endPos` at entry) that bounds the
number of iterations: every productive read delivers at least one byte,
so the gas never runs out before the loop's own exit tests fire. -/
def readLoopAux : Nat → Nat → List Nat → Nat → RStream →
    Except RError (List Nat × RStream)
  | 0, total, buf, endPos, st =>
    if endPos = total then Except.ok (buf, st)
    else Except.error RError.panicSlice
  | gas + 1, total, buf, endPos, st =>
    if endPos = total then Except.ok (buf, st)
    else if total < endPos then Except.error RError.panicSlice
    else
      let r := readStream (total - endPos) st
      if r.1.length = 0 then Except.error RError.eof
      else readLoopAux gas total (writeAt buf endPos r.1) (endPos + r.1.length) r.2

/-- The read loop at its entry point. -/
def readLoop (total : Nat) (buf : List Nat) (endPos : Nat) (st : RStream) :
    Except RError (List Nat × RStream) :=
  readLoopAux (total - endPos) total buf endPos st

/-- `ReaderTask::read_pdu_vec`: sniff the header, compute
`total = start + len`, resize the buffer to `total` and keep reading
until exactly `total` bytes are buffered. -/
def read_pdu_vec (sniff : List Nat → Option PduInfo) (st : RStream) :
    Except RError (List Nat × RStream) :=
  match read_bser_pdu_length sniff st with
  | Except.error e => Except.error e
  | Except.ok (header, st1) =>
    let total := header.pdu.start + header.pdu.len
    readLoop total (listResize header.buf total) header.buf.length st1

theorem readStream_chunk_le (cap : Nat) (st : RStream) :
    (readStream cap st).1.length ≤ cap := by
  unfold readStream
  cases st.sched with
  | nil => simp
  | cons n ns =>
    simp only [List.length_take]
    omega

theorem writeAt_length (buf : List Nat) (pos : Nat) (chunk : List Nat)
    (h : pos + chunk.length ≤ buf.length) :
    (writeAt buf pos chunk).length = buf.length := by
  simp only [writeAt, List.length_append, List.length_take, List.length_drop]
  omega

theorem listResize_length (l : List Nat) (n : Nat) :
    (listResize l n).length = n := by
  simp only [listResize, List.length_append, List.length_take,
    List.length_replicate]
  omega

theorem readLoopAux_ok_length (gas : Nat) :
    ∀ (total : Nat) (buf : List Nat) (endPos : Nat) (st : RStream)
      (b : List Nat) (st' : RStream),
      buf.length = total →
      readLoopAux gas total buf endPos st = Except.ok (b, st') →
      b.length = total := by
  induction gas with
  | zero =>
    intro total buf endPos st b st' hlen h
    simp only [readLoopAux] at h
    split at h
    · injection h with h1
      injection h1 with h2 h3
      rw [← h2]
      exact hlen
    · exact Except.noConfusion h
  | succ k ih =>
    intro total buf endPos st b st' hlen h
    simp only [readLoopAux] at h
    split at h
    · injection h with h1
      injection h1 with h2 h3
      rw [← h2]
      exact hlen
    · split at h
      · exact Except.noConfusion h
      · rename_i hne hle
        split at h
        · exact Except.noConfusion h
        · refine ih total _ _ _ b st' ?_ h
          have hch := readStream_chunk_le (total - endPos) st
          rw [writeAt_length _ _ _ (by omega)]
          exact hlen

/-- Claim C6: `read_pdu_vec` computes the total PDU size as the header
start offset plus the declared length and reads until exactly that
many bytes are buffered (any successfully returned buffer has exactly
that length); a zero-byte read before the buffer is complete yields
`Error::Eof` immediately rather than being retried; and a header-sniff
decode failure yields the fatal `Deserialize` error carrying the bytes
read so far. -/
theorem c6_reader_framing (sniff : List Nat → Option PduInfo) (st : RStream) :
    (∀ hdr st1, read_bser_pdu_length sniff st = Except.ok (hdr, st1) →
      ∀ b st2, read_pdu_vec sniff st = Except.ok (b, st2) →
        b.length = hdr.pdu.start + hdr.pdu.len) ∧
    (∀ (total : Nat) (buf : List Nat) (endPos : Nat) (st0 : RStream),
      endPos < total →
      (readStream (total - endPos) st0).1.length = 0 →
      readLoop total buf endPos st0 = Except.error RError.eof) ∧
    ((readStream 16 st).1.length ≠ 0 →
      sniff (readStream 16 st).1 = none →
      read_pdu_vec sniff st
        = Except.error (RError.deserialize (readStream 16 st).1)) := by
  refine ⟨?_, ?_, ?_⟩
  · intro hdr st1 hhdr b st2 hread
    simp only [read_pdu_vec, hhdr] at hread
    have := readLoopAux_ok_length
      ((hdr.pdu.start + hdr.pdu.len) - hdr.buf.length)
      (hdr.pdu.start + hdr.pdu.len)
      (listResize hdr.buf (hdr.pdu.start + hdr.pdu.len))
      hdr.buf.length st1 b st2
      (listResize_length _ _) hread
    exact this
  · intro total buf endPos st0 hlt hzero
    unfold readLoop
    have hgas : ∃ k, total - endPos = k + 1 := ⟨total - endPos - 1, by omega⟩
    obtain ⟨k, hk⟩ := hgas
    rw [hk]
    simp only [readLoopAux]
    rw [if_neg (by omega), if_neg (by omega)]
    simp [hzero]
  · intro hne hnone
    simp only [read_pdu_vec, read_bser_pdu_length, hnone]
    rw [if_neg hne]

/-- Witness for C6: a concrete two-chunk stream whose header declares
`start = 2`, `len = 3`; the loop returns exactly five buffered bytes. -/
theorem c6_reader_framing_witness :
    ([1, 2, 3, 4, 5] : List Nat).length = 2 + 3 :=
  (c6_reader_framing
      (fun c => if c = [1, 2] then some ⟨2, 3⟩ else none)
      ⟨[1, 2, 3, 4, 5], [2, 3]⟩).1
    ⟨[1, 2], ⟨2, 3⟩⟩ ⟨[3, 4, 5], [3]⟩ rfl
    [1, 2, 3, 4, 5] ⟨[], []⟩ rfl

/-! ### Request Façade (ClientInner::generic_request) post-processing -/

/-- A decoded BSER value shape: response PDUs are self-describing
values; the shallow `MaybeError` decode only needs to distinguish
objects, strings and null at the top level. -/
inductive BValue where
  | null
  | bool (b : Bool)
  | int (n : Int)
  | str (s : String)
  | arr (items : List BValue)
  | obj (fields : List (String × BValue))

/-- The error taxonomy of `generic_request` past the transport layer:
serialization failure, structural decode failure, generic channel
errors, and the server-reported `WatchmanServerError` carrying the
error message and a debug description of the attempted command. -/
inductive WError where
  | serializeFailed
  | deserializeFailed
  | generic (msg : String)
  | watchmanServerError (message : String) (command : String)

/-- First top-level field with the given name, as serde sees a map. -/
def lookupField (name : String) (fields : List (String × BValue)) :
    Option BValue :=
  (fields.find? (fun f => f.1 = name)).map (·.2)

/-- The shallow decode into
`struct MaybeError { #[serde(default)] error: Option<String> }`:
a non-object PDU or a non-string non-null `error` field is a
structural decode failure; an absent or null field gives `none`. -/
def decodeMaybeError (v : BValue) : Except WError (Option String) :=
  match v with
  | BValue.obj fields =>
    match lookupField "error" fields with
    | none => Except.ok none
    | some BValue.null => Except.ok none
    | some (BValue.str s) => Except.ok (some s)
    | some _ => Except.error WError.deserializeFailed
  | _ => Except.error WError.deserializeFailed

/-- Steps 4 and 5 of `ClientInner::generic_request`, applied to the
raw response PDU successfully returned from the oneshot channel:
sniff for a top-level `error` field; if present fail with
`WatchmanServerError` (the `command` string models
`format!("{:#?}", request)`); otherwise run the caller's full typed
decode. -/
def generic_request_finish {R : Type} (command : String)
    (decodeResponse : BValue → Except WError R) (pdu_data : BValue) :
    Except WError R :=
  match decodeMaybeError pdu_data with
  | Except.error e => Except.error e
  | Except.ok (some message) =>
    Except.error (WError.watchmanServerError message command)
  | Except.ok none => decodeResponse pdu_data

/-- Claim C7: for every raw response handed back to
`generic_request`, if the shallow decode finds a top-level `error`
field (a string), the call fails with `WatchmanServerError` carrying
that message and the command description — for every expected typed
response decoder; only when the `error` field is absent is the full
typed decode performed and its result returned. -/
theorem c7_error_field_sniffing {R : Type} (command : String)
    (decodeResponse : BValue → Except WError R)
    (fields : List (String × BValue)) (m : String) :
    (lookupField "error" fields = some (BValue.str m) →
      generic_request_finish command decodeResponse (BValue.obj fields)
        = Except.error (WError.watchmanServerError m command)) ∧
    (lookupField "error" fields = none →
      generic_request_finish command decodeResponse (BValue.obj fields)
        = decodeResponse (BValue.obj fields)) := by
  constructor
  · intro h
    simp [generic_request_finish, decodeMaybeError, h]
  · intro h
    simp [generic_request_finish, decodeMaybeError, h]

/-- Witness for C7: the `{"error": "no such watch"}` scenario fails
with the server-reported error even though the typed decoder would
succeed; an error-free response reaches the typed decoder. -/
theorem c7_error_field_sniffing_witness :
    generic_request_finish "query" (fun _ => Except.ok (0 : Nat))
        (BValue.obj [("error", BValue.str "no such watch")])
      = Except.error (WError.watchmanServerError "no such watch" "query") ∧
    generic_request_finish "query" (fun _ => Except.ok (0 : Nat))
        (BValue.obj [("version", BValue.str "4.9.0")])
      = Except.ok 0 :=
  ⟨(c7_error_field_sniffing "query" (fun _ => Except.ok (0 : Nat))
      [("error", BValue.str "no such watch")] "no such watch").1 rfl,
   ((c7_error_field_sniffing "query" (fun _ => Except.ok (0 : Nat))
      [("version", BValue.str "4.9.0")] "").2 rfl).trans rfl⟩

/-! ### Subscription handle -/

/-- The fields of `QueryResult` that `Subscription::next` inspects
(field names and types from their use in `lib.rs`; the full struct
lives in the `pdu` module): the cancellation flag, the state
enter/leave names, and the state metadata.  `payload` stands for the
remaining decoded fields (file list, clock, fresh-instance flag, ...)
that are carried through unchanged into a `FilesChanged` event. -/
structure QueryResult where
  subscription_canceled : Bool
  state_enter : Option String
  state_leave : Option String
  state_metadata : Option BValue
  payload : Nat

/-- `SubscriptionData`, the event classification returned by
`Subscription::next`. -/
inductive SubscriptionData where
  | canceled
  | filesChanged (result : QueryResult)
  | stateEnter (state_name : String) (metadata : Option BValue)
  | stateLeave (state_name : String) (metadata : Option BValue)

/-- The subscription's private unbounded channel as the handle sees
it: the messages buffered (each one the result of `bunser` on the
forwarded raw PDU, `none` when that decode fails) and whether the
receiving half has been closed.  Per tokio's documented `close`
semantics, closing prevents further sends but messages already
buffered can still be received. -/
structure SubChannel where
  buffered : List (Option QueryResult)
  closed : Bool

/-- Outcome of `recv().await`: a buffered message, `None` because the
channel is closed and drained, or suspension awaiting a sender. -/
inductive RecvOut where
  | msg (m : Option QueryResult) (rest : SubChannel)
  | closedEmpty
  | wouldBlock

/-- `UnboundedReceiver::recv`: deliver the oldest buffered message if
any (even after `close`); on an empty closed channel return `None`. -/
def chanRecv (c : SubChannel) : RecvOut :=
  match c.buffered with
  | m :: rest => RecvOut.msg m ⟨rest, c.closed⟩
  | [] => if c.closed then RecvOut.closedEmpty else RecvOut.wouldBlock

/-- `Subscription::next`: receive a PDU (an exhausted channel is the
"client was torn down" error; a decode failure is a deserialize
error), then classify by checking `subscription_canceled` first
(closing the channel), then `state_enter`, then `state_leave`, else
`FilesChanged`.  `none` models suspension (no message available yet). -/
def subscription_next (c : SubChannel) :
    Option (Except WError SubscriptionData × SubChannel) :=
  match chanRecv c with
  | RecvOut.wouldBlock => none
  | RecvOut.closedEmpty =>
    some (Except.error (WError.generic "client was torn down"), c)
  | RecvOut.msg none rest =>
    some (Except.error WError.deserializeFailed, rest)
  | RecvOut.msg (some qr) rest =>
    if qr.subscription_canceled then
      some (Except.ok SubscriptionData.canceled, { rest with closed := true })
    else
      match qr.state_enter with
      | some state_name =>
        some (Except.ok (SubscriptionData.stateEnter state_name
          qr.state_metadata), rest)
      | none =>
        match qr.state_leave with
        | some state_name =>
          some (Except.ok (SubscriptionData.stateLeave state_name
            qr.state_metadata), rest)
        | none =>
          some (Except.ok (SubscriptionData.filesChanged qr), rest)

/-- Claim C8: `Subscription::next` classifies each decoded push
payload by its optional fields in a fixed order: the cancellation flag
first (even when state names are also present), then the state-enter
name, then the state-leave name (each carrying the metadata), else a
`FilesChanged` change-set carrying the whole decoded result. -/
theorem c8_next_classification (c : SubChannel) (qr : QueryResult)
    (rest : List (Option QueryResult)) (h : c.buffered = some qr :: rest) :
    (qr.subscription_canceled = true →
      subscription_next c
        = some (Except.ok SubscriptionData.canceled, ⟨rest, true⟩)) ∧
    (qr.subscription_canceled = false → ∀ n, qr.state_enter = some n →
      subscription_next c
        = some (Except.ok (SubscriptionData.stateEnter n qr.state_metadata),
            ⟨rest, c.closed⟩)) ∧
    (qr.subscription_canceled = false → qr.state_enter = none →
      ∀ n, qr.state_leave = some n →
      subscription_next c
        = some (Except.ok (SubscriptionData.stateLeave n qr.state_metadata),
            ⟨rest, c.closed⟩)) ∧
    (qr.subscription_canceled = false → qr.state_enter = none →
      qr.state_leave = none →
      subscription_next c
        = some (Except.ok (SubscriptionData.filesChanged qr),
            ⟨rest, c.closed⟩)) := by
  refine ⟨?_, ?_, ?_, ?_⟩
  · intro hc
    simp [subscription_next, chanRecv, h, hc]
  · intro hc n he
    simp [subscription_next, chanRecv, h, hc, he]
  · intro hc he n hl
    simp [subscription_next, chanRecv, h, hc, he, hl]
  · intro hc he hl
    simp [subscription_next, chanRecv, h, hc, he, hl]

/-- Witness for C8: a payload with both the cancellation flag and a
state-enter name is classified as `Canceled` (cancellation is checked
first). -/
theorem c8_next_classification_witness :
    subscription_next ⟨[some ⟨true, some "hg.update", none, none, 0⟩], false⟩
      = some (Except.ok SubscriptionData.canceled, ⟨[], true⟩) :=
  (c8_next_classification ⟨[some ⟨true, some "hg.update", none, none, 0⟩], false⟩
    ⟨true, some "hg.update", none, none, 0⟩ [] rfl).1 rfl

/-- Claim C9 is refuted: after `next` observes a cancellation it
closes the channel, but a change-set PDU that was already buffered on
the channel is still drained by the following call, which returns
`FilesChanged`, not a cancellation or a closed-channel error. -/
theorem c9_counterexample :
    subscription_next
        ⟨[some ⟨true, none, none, none, 0⟩,
          some ⟨false, none, none, none, 1⟩], false⟩
      = some (Except.ok SubscriptionData.canceled,
          ⟨[some ⟨false, none, none, none, 1⟩], true⟩) ∧
    subscription_next ⟨[some ⟨false, none, none, none, 1⟩], true⟩
      = some (Except.ok
          (SubscriptionData.filesChanged ⟨false, none, none, none, 1⟩),
          ⟨[], true⟩) :=
  ⟨rfl, rfl⟩

/-- Claim C9 (amended): observing a cancellation closes the channel
(so no new message can be delivered to it); closedness is preserved by
every subsequent call; a subsequent call can therefore only return an
event decoded from a message that was already buffered when the
cancellation was observed, and once the channel is drained every
subsequent call returns the closed-channel error. -/
theorem c9_after_cancel (c : SubChannel) :
    (∀ qr rest, c.buffered = some qr :: rest →
      qr.subscription_canceled = true →
      subscription_next c
        = some (Except.ok SubscriptionData.canceled, ⟨rest, true⟩)) ∧
    (∀ r c', c.closed = true → subscription_next c = some (r, c') →
      c'.closed = true) ∧
    (c.closed = true → c.buffered = [] →
      subscription_next c
        = some (Except.error (WError.generic "client was torn down"), c)) := by
  refine ⟨?_, ?_, ?_⟩
  · intro qr rest h hc
    simp [subscription_next, chanRecv, h, hc]
  · intro r c' hcl h
    cases hb : c.buffered with
    | nil =>
      simp only [subscription_next, chanRecv, hb, hcl, if_true] at h
      injection h with h1
      injection h1 with h2 h3
      rw [← h3, hcl]
    | cons m rest =>
      cases m with
      | none =>
        simp only [subscription_next, chanRecv, hb] at h
        injection h with h1
        injection h1 with h2 h3
        rw [← h3, hcl]
      | some qr =>
        simp only [subscription_next, chanRecv, hb] at h
        by_cases hc : qr.subscription_canceled = true
        · simp only [hc, if_true] at h
          injection h with h1
          injection h1 with h2 h3
          rw [← h3]
        · simp only [Bool.not_eq_true] at hc
          simp only [hc, Bool.false_eq_true, if_false] at h
          cases he : qr.state_enter with
          | some n =>
            simp only [he] at h
            injection h with h1
            injection h1 with h2 h3
            rw [← h3, hcl]
          | none =>
            simp only [he] at h
            cases hl : qr.state_leave with
            | some n =>
              simp only [hl] at h
              injection h with h1
              injection h1 with h2 h3
              rw [← h3, hcl]
            | none =>
              simp only [hl] at h
              injection h with h1
              injection h1 with h2 h3
              rw [← h3, hcl]
  · intro hcl hb
    simp [subscription_next, chanRecv, hb, hcl]

/-- Witness for the amended C9: on a closed drained channel the next
call returns the closed-channel error and the channel stays closed. -/
theorem c9_after_cancel_witness :
    subscription_next ⟨[], true⟩
      = some (Except.error (WError.generic "client was torn down"),
          ⟨[], true⟩) :=
  (c9_after_cancel ⟨[], true⟩).2.2 rfl rfl

/-! ### CanonicalPath -/

/-- `Path::is_absolute` for unix paths: the path starts with the root
separator character. -/
def isAbsolute (path : String) : Bool :=
  match path.data with
  | '/' :: _ => true
  | _ => false

/-- `CanonicalPath::strip_unc_escape`, unix configuration: identity. -/
def strip_unc_escape (path : String) : String :=
  path

/-- `CanonicalPath::with_canonicalized_path`: asserts that the path is
absolute (`none` models the assertion panic) and wraps the
UNC-stripped path. -/
def with_canonicalized_path (path : String) : Option String :=
  if isAbsolute path then some (strip_unc_escape path) else none

/-- Claim C10: `with_canonicalized_path` panics (assertion failure)
for every non-absolute input path, and returns normally exactly on
absolute paths. -/
theorem c10_requires_absolute (path : String) :
    (isAbsolute path = false → with_canonicalized_path path = none) ∧
    (isAbsolute path = true →
      with_canonicalized_path path = some (strip_unc_escape path)) := by
  constructor <;> intro h <;> simp [with_canonicalized_path, h]

/-- Witness for C10: a relative path panics, an absolute path is
returned unchanged. -/
theorem c10_requires_absolute_witness :
    with_canonicalized_path "relative/path" = none ∧
    with_canonicalized_path "/watched/root" = some "/watched/root" :=
  ⟨(c10_requires_absolute "relative/path").1 (by decide),
   (c10_requires_absolute "/watched/root").2 (by decide)⟩

end Watchman
